import Mathlib

/-
Verification of the Mandelbrot escape-time core of `src/main.rs`:
the escape evaluator `num_of_mandelbrot_iters_before_escape` and the
field sampler `calculate_mandelbrot`. The Rust code computes with IEEE-754
`f64`; here the arithmetic is embedded with exact rationals (`ℚ`), which
agrees with `f64` on every operation the settled claims depend on (the
concrete inputs involved are small integers and exactly representable
fractions, and the structural claims are independent of rounding).
-/

namespace Mandelbrot

/-- A complex number as a pair of (rational-valued) coordinates,
mirroring `num::complex::Complex<f64>`. -/
structure Complex where
  re : ℚ
  im : ℚ
deriving DecidableEq

/-- Complex addition, as in the `num` crate: componentwise. -/
def Complex.add (a b : Complex) : Complex :=
  ⟨a.re + b.re, a.im + b.im⟩

/-- Complex multiplication, as in the `num` crate:
`(a+bi)(c+di) = (ac − bd) + (ad + bc)i`. -/
def Complex.mul (a b : Complex) : Complex :=
  ⟨a.re * b.re - a.im * b.im, a.re * b.im + a.im * b.re⟩

instance : Add Complex := ⟨Complex.add⟩

instance : Mul Complex := ⟨Complex.mul⟩

lemma Complex.add_def (a b : Complex) :
    a + b = ⟨a.re + b.re, a.im + b.im⟩ := rfl

lemma Complex.mul_def (a b : Complex) :
    a * b = ⟨a.re * b.re - a.im * b.im, a.re * b.im + a.im * b.re⟩ := rfl

/-- `let escape_value = 2.0;` in `num_of_mandelbrot_iters_before_escape`. -/
def escape_value : ℚ := 2

/-- The escape test of the loop body in `num_of_mandelbrot_iters_before_escape`:
`z.re > escape_value || z.re < -escape_value || z.im > escape_value || z.im < -escape_value`. -/
def escaped (z : Complex) : Prop :=
  z.re > escape_value ∨ z.re < -escape_value ∨ z.im > escape_value ∨ z.im < -escape_value

instance (z : Complex) : Decidable (escaped z) := by
  unfold escaped; exact inferInstance

/-- The `for i in 0..=max_iterations` loop of
`num_of_mandelbrot_iters_before_escape`, with `fuel` the number of loop
iterations still to run (`max_iterations + 1` at entry): each iteration
first tests `z` for escape, returning the current index `i` if it fires,
otherwise updates `z ← z*z + c`; falling out of the loop returns
`max_iterations`. -/
def mandelGo (c : Complex) (max_iterations : ℕ) : ℕ → Complex → ℕ → ℕ
  | 0, _, _ => max_iterations
  | fuel + 1, z, i =>
    if escaped z then i
    else mandelGo c max_iterations fuel (z * z + c) (i + 1)

/-- `fn num_of_mandelbrot_iters_before_escape(c, mut z, max_iterations) -> usize`
from `src/main.rs`: runs the escape loop from the given `z` with `i`
starting at `0`; the `0..=max_iterations` range performs
`max_iterations + 1` iterations. -/
def num_of_mandelbrot_iters_before_escape (c z : Complex) (max_iterations : ℕ) : ℕ :=
  mandelGo c max_iterations (max_iterations + 1) z 0

/-- The spec's `escape_count(c, max_iterations)`: the code's escape
function at the orbit start `z = (0, 0)`, exactly as every call site in
`calculate_mandelbrot` invokes it. -/
def escape_count (c : Complex) (max_iterations : ℕ) : ℕ :=
  num_of_mandelbrot_iters_before_escape c ⟨0, 0⟩ max_iterations

/-- The Mandelbrot orbit: `z_0 = 0`, `z_{k+1} = z_k * z_k + c`. -/
def orbit (c : Complex) : ℕ → Complex
  | 0 => ⟨0, 0⟩
  | k + 1 => orbit c k * orbit c k + c

/-- Modelled from the spec: the reference escape-time definition of claim
C1 — the smallest index `i` in `0..=N` whose orbit point `z_i` passes the
per-axis escape test, and `N` when no index among the `N + 1` checks does.
`List.find?` over `List.range (N+1)` returns the earliest (hence smallest)
matching index. -/
def refEscapeCount (c : Complex) (N : ℕ) : ℕ :=
  (((List.range (N + 1)).find? fun i => decide (escaped (orbit c i))).getD N)

/-- `fn calculate_mandelbrot(max_iterations, real_min, real_max,
imaginary_min, imaginary_max, width, height) -> Vec<Vec<usize>>` from
`src/main.rs`: for each `pixel_y in 0..height` and `pixel_x in 0..width`,
maps the pixel to a plane point by linear interpolation and records the
escape count, row-major. -/
def calculate_mandelbrot (max_iterations : ℕ)
    (real_min real_max imaginary_min imaginary_max : ℚ)
    (width height : ℕ) : List (List ℕ) :=
  (List.range height).map fun (pixel_y : ℕ) =>
    (List.range width).map fun (pixel_x : ℕ) =>
      let pixel_x_percent : ℚ := (pixel_x : ℚ) / (width : ℚ)
      let pixel_y_percent : ℚ := (pixel_y : ℚ) / (height : ℚ)
      let x_axis_length := real_max - real_min
      let cx := pixel_x_percent * x_axis_length + real_min
      let y_axis_length := imaginary_max - imaginary_min
      let cy := pixel_y_percent * y_axis_length + imaginary_min
      let c : Complex := ⟨cx, cy⟩
      let z : Complex := ⟨0, 0⟩
      num_of_mandelbrot_iters_before_escape c z max_iterations

/-- The escape predicate used on orbit indices, as a boolean. -/
def escTest (c : Complex) : ℕ → Bool :=
  fun i => decide (escaped (orbit c i))

/-- Running the loop from the `j`-th orbit point with index `j` and `fuel`
iterations of budget returns the first index in `[j, j + fuel)` whose orbit
point has escaped, and `max_iterations` when none has. -/
lemma mandelGo_orbit (c : Complex) (m : ℕ) :
    ∀ (fuel j : ℕ),
      mandelGo c m fuel (orbit c j) j
        = ((List.range' j fuel).find? (escTest c)).getD m := by
  intro fuel
  induction fuel with
  | zero => intro j; simp [mandelGo]
  | succ n ih =>
    intro j
    rw [List.range'_succ]
    by_cases h : escaped (orbit c j)
    · rw [List.find?_cons_of_pos _ (by simpa [escTest] using h)]
      simp [mandelGo, h]
    · rw [List.find?_cons_of_neg _ (by simpa [escTest] using h)]
      have hstep : orbit c j * orbit c j + c = orbit c (j + 1) := rfl
      simp only [mandelGo, if_neg h, hstep]
      exact ih (j + 1)

/-- `escape_count` is the first escaped index among `0..=m`, defaulting
to `m`. -/
lemma escape_count_eq_find (c : Complex) (m : ℕ) :
    escape_count c m = ((List.range (m + 1)).find? (escTest c)).getD m := by
  have h0 : (⟨0, 0⟩ : Complex) = orbit c 0 := rfl
  rw [escape_count, num_of_mandelbrot_iters_before_escape, h0,
    mandelGo_orbit c m (m + 1) 0, List.range_eq_range']

/-- If the search succeeds, the found index is at most `m`. -/
lemma find_range_le (c : Complex) (m i : ℕ)
    (h : (List.range (m + 1)).find? (escTest c) = some i) : i ≤ m := by
  have := List.mem_of_find?_eq_some h
  have := List.mem_range.mp this
  omega

/-- `escape_count` never exceeds the iteration cap. -/
lemma escape_count_le (c : Complex) (m : ℕ) : escape_count c m ≤ m := by
  rw [escape_count_eq_find]
  cases hf : (List.range (m + 1)).find? (escTest c) with
  | none => simp
  | some i => simpa using find_range_le c m i hf

/-- Extending the range by one step preserves a successful search. -/
lemma find_range_mono (c : Complex) (N i : ℕ)
    (h : (List.range (N + 1)).find? (escTest c) = some i) :
    (List.range (N + 1 + 1)).find? (escTest c) = some i := by
  rw [List.range_succ, List.find?_append, h]
  rfl

/-- `escape_count` is monotone in the iteration cap, one step. -/
lemma escape_count_le_succ (c : Complex) (N : ℕ) :
    escape_count c N ≤ escape_count c (N + 1) := by
  rw [escape_count_eq_find, escape_count_eq_find]
  cases hf : (List.range (N + 1)).find? (escTest c) with
  | none =>
    simp only [Option.getD_none]
    cases hg : (List.range (N + 1 + 1)).find? (escTest c) with
    | none => simp
    | some j =>
      have hj : j ∈ List.range (N + 1 + 1) := List.mem_of_find?_eq_some hg
      rw [List.range_succ, List.find?_append, hf] at hg
      have : ([N + 1].find? (escTest c)) = some j := hg
      have hj' : j ∈ [N + 1] := List.mem_of_find?_eq_some this
      simp at hj'
      simp [hj']
  | some i =>
    rw [find_range_mono c N i hf]
    simp

/-- `escape_count` is monotone in the iteration cap. -/
lemma escape_count_mono (c : Complex) {M N : ℕ} (h : M ≤ N) :
    escape_count c M ≤ escape_count c N := by
  induction N with
  | zero =>
    have hM : M = 0 := by omega
    subst hM; exact le_refl _
  | succ n ih =>
    rcases Nat.lt_or_ge M (n + 1) with h' | h'
    · exact le_trans (ih (by omega)) (escape_count_le_succ c n)
    · have : M = n + 1 := by omega
      subst this; exact le_refl _

/-- A count strictly below the cap comes from a successful search. -/
lemma find_of_lt (c : Complex) (M : ℕ) (h : escape_count c M < M) :
    (List.range (M + 1)).find? (escTest c) = some (escape_count c M) := by
  rw [escape_count_eq_find] at h
  cases hf : (List.range (M + 1)).find? (escTest c) with
  | none => rw [hf] at h; simp at h
  | some i =>
    rw [escape_count_eq_find, hf]
    rfl

/-- Raising the cap never changes the count of a point that already
escaped below the old cap. -/
lemma escape_count_stable (c : Complex) {M N : ℕ} (hMN : M ≤ N)
    (h : escape_count c M < M) : escape_count c N = escape_count c M := by
  have key : ∀ k, (List.range (M + k + 1)).find? (escTest c)
      = some (escape_count c M) := by
    intro k
    induction k with
    | zero => exact find_of_lt c M h
    | succ n ih => exact find_range_mono c (M + n) _ ih
  obtain ⟨k, rfl⟩ : ∃ k, N = M + k := ⟨N - M, by omega⟩
  rw [escape_count_eq_find, key k]
  rfl

/-- The orbit of `c = (0, 0)` stays at the origin. -/
lemma orbit_origin (k : ℕ) : orbit ⟨0, 0⟩ k = ⟨0, 0⟩ := by
  induction k with
  | zero => rfl
  | succ n ih =>
    rw [orbit, ih, Complex.mul_def, Complex.add_def]
    norm_num

/-- C1: for every complex `c` and cap `N`, `escape_count c N` equals the
reference escape-time definition: the smallest index `i` in `0..=N` with
`|Re z_i| > 2` or `|Im z_i| > 2` along the orbit `z_0 = 0`,
`z_{k+1} = z_k² + c`, and `N` when no such index exists among the `N + 1`
checks. -/
theorem C1_escape_count_eq_ref (c : Complex) (N : ℕ) :
    escape_count c N = refEscapeCount c N := by
  rw [escape_count_eq_find]; rfl

/-- C2: the value of `escape_count` always lies in `[0, N]`. -/
theorem C2_escape_count_range (c : Complex) (N : ℕ) :
    0 ≤ escape_count c N ∧ escape_count c N ≤ N :=
  ⟨Nat.zero_le _, escape_count_le c N⟩

/-- C3 counterexample: at `c = (3, 0)` with cap `1` the code returns `1`,
not `0` — the escape test runs before each update, so `z_1 = (3, 0)` is
first seen escaped at index `1`. -/
theorem C3_counterexample : ¬ (escape_count ⟨3, 0⟩ 1 = 0) := by
  norm_num [escape_count, num_of_mandelbrot_iters_before_escape, mandelGo,
    Complex.mul_def, Complex.add_def, escaped, escape_value]

/-- C3 amended: `escape_count` at `c = (3, 0)` returns `min 1 N`: `0` when
`N = 0` (the loop's only check sees `z_0 = 0`, unescaped, and the cap is
returned) and `1` for every `N ≥ 1`. -/
theorem C3_amended (N : ℕ) : escape_count ⟨3, 0⟩ N = min 1 N := by
  match N with
  | 0 =>
    norm_num [escape_count, num_of_mandelbrot_iters_before_escape, mandelGo,
      Complex.mul_def, Complex.add_def, escaped, escape_value]
  | 1 =>
    norm_num [escape_count, num_of_mandelbrot_iters_before_escape, mandelGo,
      Complex.mul_def, Complex.add_def, escaped, escape_value]
  | n + 2 =>
    have h2 : escape_count ⟨3, 0⟩ 2 = 1 := by
      norm_num [escape_count, num_of_mandelbrot_iters_before_escape, mandelGo,
        Complex.mul_def, Complex.add_def, escaped, escape_value]
    have := escape_count_stable ⟨3, 0⟩ (M := 2) (N := n + 2) (by omega) (by rw [h2]; omega)
    rw [this, h2]
    omega

/-- C4: the origin never escapes, so `escape_count ⟨0,0⟩ N = N`. -/
theorem C4_origin_returns_cap (N : ℕ) : escape_count ⟨0, 0⟩ N = N := by
  rw [escape_count_eq_find]
  have : (List.range (N + 1)).find? (escTest ⟨0, 0⟩) = none := by
    rw [List.find?_eq_none]
    intro x _
    rw [escTest, orbit_origin]
    norm_num [escaped, escape_value]
  rw [this]
  rfl

/-- C5: every cell `(y, x)` of the sampled grid holds the escape count of
the plane point obtained by linear interpolation,
`(x/width · (real_max − real_min) + real_min,
  y/height · (imaginary_max − imaginary_min) + imaginary_min)`;
row `0` corresponds to `imaginary_min` and increasing `y` moves toward
`imaginary_max`. -/
theorem C5_grid_cell (max_iterations : ℕ)
    (real_min real_max imaginary_min imaginary_max : ℚ)
    (width height y x : ℕ) (hy : y < height) (hx : x < width) :
    ((calculate_mandelbrot max_iterations real_min real_max imaginary_min
        imaginary_max width height).getD y []).getD x 0
      = escape_count
          ⟨(x : ℚ) / (width : ℚ) * (real_max - real_min) + real_min,
           (y : ℚ) / (height : ℚ) * (imaginary_max - imaginary_min)
             + imaginary_min⟩
          max_iterations := by
  simp only [calculate_mandelbrot, escape_count, List.getD_eq_getElem?_getD,
    List.getElem?_map, List.getElem?_range hy, List.getElem?_range hx,
    Option.map_some', Option.getD_some]

/-- C5 witness: a concrete cell of a `3 × 2` grid. -/
theorem C5_grid_cell_witness :
    1 < 2 ∧ 2 < 3 ∧
      ((calculate_mandelbrot 2 (-2) 1 (-1) 1 3 2).getD 1 []).getD 2 0
        = escape_count
            ⟨(2 : ℚ) / (3 : ℚ) * (1 - (-2)) + (-2),
             (1 : ℚ) / (2 : ℚ) * (1 - (-1)) + (-1)⟩ 2 :=
  ⟨by omega, by omega,
    C5_grid_cell 2 (-2) 1 (-1) 1 3 2 1 2 (by omega) (by omega)⟩

/-- C6: with `width = height = 1` the grid is a single cell whose plane
point is exactly `(real_min, imaginary_min)`. -/
theorem C6_single_cell (max_iterations : ℕ)
    (real_min real_max imaginary_min imaginary_max : ℚ) :
    calculate_mandelbrot max_iterations real_min real_max imaginary_min
        imaginary_max 1 1
      = [[escape_count ⟨real_min, imaginary_min⟩ max_iterations]] := by
  rw [calculate_mandelbrot, escape_count]
  have h1 : List.range 1 = [0] := rfl
  rw [h1]
  simp only [List.map_cons, List.map_nil]
  norm_num

/-- C7: the grid always has exactly `height` rows, each of exactly `width`
cells, independent of the plane bounds and the iteration cap. -/
theorem C7_grid_dimensions (max_iterations : ℕ)
    (real_min real_max imaginary_min imaginary_max : ℚ)
    (width height : ℕ) :
    (calculate_mandelbrot max_iterations real_min real_max imaginary_min
        imaginary_max width height).length = height ∧
    (calculate_mandelbrot max_iterations real_min real_max imaginary_min
        imaginary_max width height).map List.length
      = List.replicate height width := by
  constructor
  · simp [calculate_mandelbrot]
  · rw [List.eq_replicate_iff]
    constructor
    · simp [calculate_mandelbrot]
    · intro b hb
      simp only [calculate_mandelbrot, List.mem_map] at hb
      obtain ⟨row, ⟨py, _, rfl⟩, rfl⟩ := hb
      simp

/-- C8: a zero dimension yields an empty grid — zero-length rows for
`width = 0`, zero rows for `height = 0` — with no failure (the embedding
is a total function, so no panic or divergence is possible, and the
per-cell interpolation is never evaluated for a zero dimension since the
corresponding range is empty). -/
theorem C8_degenerate_dimensions (max_iterations : ℕ)
    (real_min real_max imaginary_min imaginary_max : ℚ)
    (width height : ℕ) :
    calculate_mandelbrot max_iterations real_min real_max imaginary_min
        imaginary_max 0 height = List.replicate height [] ∧
    calculate_mandelbrot max_iterations real_min real_max imaginary_min
        imaginary_max width 0 = [] := by
  constructor
  · rw [List.eq_replicate_iff]
    constructor
    · simp [calculate_mandelbrot]
    · intro b hb
      simp only [calculate_mandelbrot, List.mem_map] at hb
      obtain ⟨py, _, rfl⟩ := hb
      simp
  · simp [calculate_mandelbrot]

/-- C9: both functions are deterministic pure functions of their inputs —
equal arguments give equal results, with no hidden state. -/
theorem C9_deterministic (c₁ c₂ : Complex) (N₁ N₂ : ℕ)
    (max₁ max₂ : ℕ) (a₁ a₂ b₁ b₂ d₁ d₂ e₁ e₂ : ℚ) (w₁ w₂ h₁ h₂ : ℕ)
    (hc : c₁ = c₂) (hN : N₁ = N₂) (hmax : max₁ = max₂)
    (ha : a₁ = a₂) (hb : b₁ = b₂) (hd : d₁ = d₂) (he : e₁ = e₂)
    (hw : w₁ = w₂) (hh : h₁ = h₂) :
    escape_count c₁ N₁ = escape_count c₂ N₂ ∧
    calculate_mandelbrot max₁ a₁ b₁ d₁ e₁ w₁ h₁
      = calculate_mandelbrot max₂ a₂ b₂ d₂ e₂ w₂ h₂ := by
  subst hc hN hmax ha hb hd he hw hh
  exact ⟨rfl, rfl⟩

/-- C9 witness: determinism at a concrete argument list. -/
theorem C9_deterministic_witness :
    escape_count ⟨0, 0⟩ 3 = escape_count ⟨0, 0⟩ 3 ∧
    calculate_mandelbrot 1 (-2) 1 (-1) 1 2 2
      = calculate_mandelbrot 1 (-2) 1 (-1) 1 2 2 :=
  C9_deterministic ⟨0, 0⟩ ⟨0, 0⟩ 3 3 1 1 (-2) (-2) 1 1 (-1) (-1) 1 1 2 2 2 2
    rfl rfl rfl rfl rfl rfl rfl rfl rfl

/-- C10: `escape_count` is monotone non-decreasing in the iteration cap,
and stable below it: a count strictly below its cap is unchanged by any
larger cap. -/
theorem C10_mono_stable (c : Complex) (M N : ℕ) (hMN : M ≤ N) :
    escape_count c M ≤ escape_count c N ∧
    (escape_count c M < M → escape_count c N = escape_count c M) :=
  ⟨escape_count_mono c hMN, fun h => escape_count_stable c hMN h⟩

/-- C10 witness: at `c = (3, 0)` with caps `2 ≤ 5` the count `1` is below
the cap and is preserved. -/
theorem C10_mono_stable_witness :
    2 ≤ 5 ∧
      (escape_count ⟨3, 0⟩ 2 ≤ escape_count ⟨3, 0⟩ 5 ∧
        (escape_count ⟨3, 0⟩ 2 < 2 →
          escape_count ⟨3, 0⟩ 5 = escape_count ⟨3, 0⟩ 2)) :=
  ⟨by omega, C10_mono_stable ⟨3, 0⟩ 2 5 (by omega)⟩

end Mandelbrot
